import Mathlib

/-!
# Marvin search aggregation: shallow embedding and verification

Shallow embedding of the search aggregation subsystem of the Marvin quick
launcher, translated from the Go sources:

* `internal/search/registry.go` — provider registry: `RegisterProvider`,
  `SearchAsync` (worker goroutines plus the collector goroutine), and
  `ExecuteResult`;
* the provider data model (`Provider` interface, `SearchResult`,
  `ProviderType`);
* the UI search loop (`SearchWindow.performSearch`, `selectResult`,
  `selectNextResult`, `selectPreviousResult`).

Concurrency is embedded by making the nondeterministic inputs explicit:

* each provider worker observes the session context at fixed checkpoints; the
  observations are booleans supplied to the worker function;
* the collector consumes the internal `resultCollector` channel; the arrival
  order of the published `(priority, results)` batches is an explicit list;
* each `select` that races a channel operation against `ctx.Done()` is given
  the branch it resolves to as an explicit boolean.

Go `int` is embedded as `Int`, `uint64` as `Nat` reduced mod `2 ^ 64` where
it matters, slices as `List`/`Array`, `error` values as `Option String`
(`none` = nil), and Go maps used only for membership as lists of keys.
-/

namespace Marvin

/-! ## Data model (internal/search: `ProviderType`, `SearchResult`, `Provider`) -/

/-- Go: `type ProviderType string`. -/
abbrev ProviderType := String

/-- `TypeApp ProviderType = "app"` -/
def TypeApp : ProviderType := "app"

/-- `TypeFile ProviderType = "file"` -/
def TypeFile : ProviderType := "file"

/-- `TypeCalculator ProviderType = "calculator"` -/
def TypeCalculator : ProviderType := "calculator"

/-- `TypeWeb ProviderType = "web"` -/
def TypeWeb : ProviderType := "web"

/-- `TypeSystem ProviderType = "system"` -/
def TypeSystem : ProviderType := "system"

/-- The `Icon fyne.Resource` field: an opaque handle supplied by providers and
consumed only by rendering; no code in the aggregation core inspects it, so it
carries no observable content here. -/
abbrev IconResource := Unit

/-- The `Action func()` field: an opaque side-effecting callback; the registry
and the search loop never inspect it (the UI only wraps and stores it), so it
carries no observable content here. -/
abbrev ResultAction := Unit

/-- Go struct `search.SearchResult`. -/
structure SearchResult where
  title : String
  description : String
  path : String
  icon : IconResource := ()
  rtype : ProviderType
  action : ResultAction := ()
  deriving Repr, DecidableEq

/-- Outcome of a provider's `Search(query) ([]SearchResult, error)` call:
the returned slice together with the returned error (`none` = nil). -/
abbrev SearchOutcome := List SearchResult × Option String

/-- The Go `search.Provider` interface, embedded as a record of its methods.
`rtype` stands for the `Type()` method. -/
structure Provider where
  name : String
  rtype : ProviderType
  priority : Int
  canHandle : String → Bool
  search : String → SearchOutcome
  execute : SearchResult → Option String

/-! ## Dedup key and the collector's per-batch filter (registry.go, SearchAsync) -/

/-- `resultKey := fmt.Sprintf("%s:%s", string(result.Type), result.Path)` -/
def resultKey (r : SearchResult) : String :=
  r.rtype ++ ":" ++ r.path

/-- Go's local `type priorityResult struct { priority int; results []SearchResult }`:
what a worker publishes on the internal `resultCollector` channel. -/
structure PriorityResult where
  priority : Int
  results : List SearchResult
  deriving Repr, DecidableEq

/-- One iteration of the collector's dedup loop body: `sent` is the key set of
`r.sentResults` (a Go `map[string]bool` used only for membership), `unique`
the `uniqueResults` slice built so far.

```go
resultKey := fmt.Sprintf("%s:%s", string(result.Type), result.Path)
if !r.sentResults[resultKey] {
    uniqueResults = append(uniqueResults, result)
    r.sentResults[resultKey] = true
}
``` -/
def dedupStep : List SearchResult × List String → SearchResult →
    List SearchResult × List String
  | (unique, sent), result =>
    let key := resultKey result
    if key ∈ sent then (unique, sent)
    else (unique ++ [result], key :: sent)

/-- The collector's whole per-batch filter: fold `dedupStep` over the batch,
returning `uniqueResults` and the enlarged sent-key set. -/
def filterUnique (sent : List String) (batch : List SearchResult) :
    List SearchResult × List String :=
  batch.foldl dedupStep ([], sent)

/-! ## The collector goroutine (registry.go, SearchAsync)

The collector ranges over `resultCollector` until the channel closes (all
workers finished), filtering each batch and forwarding the non-empty
survivors on `resultsCh`; each forwarding `select`s against `ctx.Done()`, and
after draining it `select`s `ctx.Done()` against `default` one final time.
All three outward channels are non-nil at every call site (`performSearch`
passes all three), so the `if errCh != nil` / `if doneCh != nil` guards are
taken as true. -/

/-- Observable channel actions of one search session. -/
inductive Event where
  | deliver (batch : List SearchResult)
  | closeResults
  | closeErr
  | doneSignal
  | closeDone
  deriving Repr, DecidableEq

/-- Resolution of the context-cancellation races inside the collector:
`cancelSend n = true` means the `n`-th attempted send on `resultsCh` resolves
to the `<-ctx.Done()` branch of its `select`; `ctxDoneAtEnd = true` means the
final `select` after the drain finds `ctx.Done()` ready. -/
structure CollectorSchedule where
  cancelSend : Nat → Bool
  ctxDoneAtEnd : Bool

/-- The schedule of a session whose context is never cancelled. -/
def noCancel : CollectorSchedule :=
  { cancelSend := fun _ => false, ctxDoneAtEnd := false }

/-- The collector goroutine of `SearchAsync`, as a function from the arrival
order of the published batches to the session's channel-event trace.

```go
for pr := range resultCollector {
    uniqueResults := ... // filterUnique
    if len(uniqueResults) > 0 {
        select {
        case resultsCh <- uniqueResults:
        case <-ctx.Done():
            close(resultsCh); close(errCh); doneCh <- struct{}{}; close(doneCh)
            return
        }
    }
}
select {
case <-ctx.Done():
default:
    close(resultsCh); close(errCh); doneCh <- struct{}{}; close(doneCh)
}
``` -/
def collectorRun (sched : CollectorSchedule) (sent : List String) (sendIdx : Nat) :
    List PriorityResult → List Event
  | [] =>
    if sched.ctxDoneAtEnd then []
    else [.closeResults, .closeErr, .doneSignal, .closeDone]
  | pr :: rest =>
    let (unique, sent2) := filterUnique sent pr.results
    if unique.length > 0 then
      if sched.cancelSend sendIdx then
        [.closeResults, .closeErr, .doneSignal, .closeDone]
      else
        .deliver unique :: collectorRun sched sent2 (sendIdx + 1) rest
    else
      collectorRun sched sent2 sendIdx rest

/-- The batches a trace delivers on `resultsCh`, in order. -/
def deliveredBatches (events : List Event) : List (List SearchResult) :=
  events.filterMap fun e =>
    match e with
    | .deliver b => some b
    | _ => none

/-- All results a trace delivers, in delivery order. -/
def deliveredResults (events : List Event) : List SearchResult :=
  (deliveredBatches events).flatten

/-! ## Spec-side dedup characterization

`firstOccur` keeps, for every key, exactly the first-arriving result whose
`resultKey` is that key (and drops results whose key is already in `seen`).
It is the one-pass reading of the spec sentence "first-arriving instance
wins"; the refinement theorem for C2 compares the collector's deliveries with
it. -/

/-- Keep the first-arriving result of each not-yet-seen key. -/
def firstOccur (seen : List String) : List SearchResult → List SearchResult
  | [] => []
  | r :: rest =>
    if resultKey r ∈ seen then firstOccur seen rest
    else r :: firstOccur (resultKey r :: seen) rest

/-! ## The provider worker goroutine (registry.go, SearchAsync) -/

/-- What a worker publishes: a `(priority, results)` batch on the internal
`resultCollector` channel, or an error on `errCh`. -/
inductive Publication where
  | batch (pr : PriorityResult)
  | errorPub (e : String)
  deriving Repr, DecidableEq

/-- Cancellation observations of one worker goroutine: the two explicit
`select ctx.Done / default` checkpoints, and the branch its publishing
`select` resolves to. -/
structure WorkerCtx where
  doneAtStart : Bool
  doneAfterSearch : Bool
  doneAtPublish : Bool

/-- One provider worker goroutine of `SearchAsync`, as a function from its
cancellation observations to what it publishes (`none` = publishes nothing).

```go
go func(p Provider, prio int) {
    defer wg.Done()
    select { case <-ctx.Done(): return default: }
    results, err := p.Search(query)
    select { case <-ctx.Done(): return default: }
    if err != nil {
        select { case errCh <- err: case <-ctx.Done(): return }
        return
    }
    if len(results) > 0 {
        select {
        case resultCollector <- priorityResult{priority: prio, results: results}:
        case <-ctx.Done(): return
        }
    }
}(provider, priority)
``` -/
def workerTask (w : WorkerCtx) (p : Provider) (query : String) : Option Publication :=
  if w.doneAtStart then none
  else
    let (results, err) := p.search query
    if w.doneAfterSearch then none
    else
      match err with
      | some e => if w.doneAtPublish then none else some (.errorPub e)
      | none =>
        if results.length > 0 then
          if w.doneAtPublish then none else some (.batch ⟨p.priority, results⟩)
        else none

/-! ## The synchronous dispatch phase of SearchAsync (registry.go) -/

/-- Observable steps of `SearchAsync`'s synchronous prefix: the `CanHandle`
calls, the worker goroutines it spawns, and the channel actions of its two
early-exit paths. -/
inductive DispatchEvent where
  | canHandleCall (providerName : String)
  | spawnWorker (providerName : String)
  | chan (e : Event)
  deriving Repr, DecidableEq

/-- The synchronous part of `SearchAsync`, as the trace of provider-facing
calls and channel actions it performs before handing over to the worker and
collector goroutines.

```go
if query == "" {
    close(resultsCh)
    doneCh <- struct{}{}; close(doneCh)
    close(errCh)
    return
}
for _, provider := range r.providers {
    if !provider.CanHandle(query) { continue }
    activeProviders++
    wg.Add(1)
    go func(p Provider, prio int) { ... }(provider, priority)
}
if activeProviders == 0 {
    close(resultsCh)
    close(errCh)
    doneCh <- struct{}{}; close(doneCh)
    return
}
``` -/
def searchAsyncDispatch (providers : List Provider) (query : String) :
    List DispatchEvent :=
  if query = "" then
    [.chan .closeResults, .chan .doneSignal, .chan .closeDone, .chan .closeErr]
  else
    let loopTrace := providers.flatMap fun p =>
      if p.canHandle query then
        [DispatchEvent.canHandleCall p.name, DispatchEvent.spawnWorker p.name]
      else
        [DispatchEvent.canHandleCall p.name]
    let activeProviders := (providers.filter fun p => p.canHandle query).length
    if activeProviders = 0 then
      loopTrace ++
        [.chan .closeResults, .chan .closeErr, .chan .doneSignal, .chan .closeDone]
    else
      loopTrace

/-- Whether a dispatch event is an invocation of a provider method. -/
def DispatchEvent.isProviderCall : DispatchEvent → Bool
  | .canHandleCall _ => true
  | .spawnWorker _ => true
  | .chan _ => false

/-! ## The consumer search loop (SearchWindow.performSearch and selection) -/

/-- The `SearchWindow` state touched by one search session of `performSearch`:
the accumulated `resultItems` (each item modelled by the `SearchResult` it
renders, description already truncated), the `selectedIndex`, the `resultMap`
from dedup key to item index, the session-local `resultsByType` map, and the
session-local `anyResults` flag. The visible list (`resultsList`) is rebuilt
from `resultItems` on every merge, so `resultItems` *is* the rendered order. -/
structure ConsumerState where
  resultItems : List SearchResult
  selectedIndex : Int
  resultMap : List (String × Nat)
  resultsByType : List (ProviderType × List Nat)
  anyResults : Bool
  deriving Repr, DecidableEq

/-- The state `performSearch` starts a session from:

```go
sw.results = nil
sw.resultItems = nil
sw.resultMap = make(map[string]int)
sw.selectedIndex = 0
...
var anyResults bool
resultsByType := make(map[search.ProviderType][]int)
``` -/
def initialConsumerState : ConsumerState :=
  { resultItems := []
    selectedIndex := 0
    resultMap := []
    resultsByType := []
    anyResults := false }

/-- `len(resultItem.Description) > 120`-truncation applied when the UI wraps a
result in a `SearchResultItem`:

```go
if len(resultItem.Description) > 120 {
    resultItem.Description = resultItem.Description[:117] + "..."
}
``` -/
def truncateItem (r : SearchResult) : SearchResult :=
  if r.description.length > 120 then
    { r with description := (r.description.take 117) ++ "..." }
  else r

/-- `resultsByType[result.Type] = append(resultsByType[result.Type], resultIndex)`
on an association list. -/
def appendByType (m : List (ProviderType × List Nat)) (t : ProviderType) (idx : Nat) :
    List (ProviderType × List Nat) :=
  match m with
  | [] => [(t, [idx])]
  | (t2, idxs) :: rest =>
    if t2 = t then (t2, idxs ++ [idx]) :: rest
    else (t2, idxs) :: appendByType rest t idx

/-- `sw.selectResult(index)`:

```go
if len(sw.resultItems) == 0 { return }
if index < 0 { index = 0 } else if index >= len(sw.resultItems) { index = len(sw.resultItems) - 1 }
...
sw.selectedIndex = index
``` -/
def selectResult (st : ConsumerState) (index : Int) : ConsumerState :=
  if st.resultItems.length = 0 then st
  else
    let index :=
      if index < 0 then 0
      else if index ≥ (st.resultItems.length : Int) then (st.resultItems.length : Int) - 1
      else index
    { st with selectedIndex := index }

/-- `sw.selectNextResult()`:

```go
if len(sw.resultItems) == 0 { return }
nextIndex := sw.selectedIndex + 1
if nextIndex >= len(sw.resultItems) { nextIndex = 0 }
sw.selectResult(nextIndex)
``` -/
def selectNextResult (st : ConsumerState) : ConsumerState :=
  if st.resultItems.length = 0 then st
  else
    let nextIndex := st.selectedIndex + 1
    let nextIndex :=
      if nextIndex ≥ (st.resultItems.length : Int) then 0 else nextIndex
    selectResult st nextIndex

/-- `sw.selectPreviousResult()`:

```go
if len(sw.resultItems) == 0 { return }
prevIndex := sw.selectedIndex - 1
if prevIndex < 0 { prevIndex = len(sw.resultItems) - 1 }
sw.selectResult(prevIndex)
``` -/
def selectPreviousResult (st : ConsumerState) : ConsumerState :=
  if st.resultItems.length = 0 then st
  else
    let prevIndex := st.selectedIndex - 1
    let prevIndex :=
      if prevIndex < 0 then (st.resultItems.length : Int) - 1 else prevIndex
    selectResult st prevIndex

/-- The inner per-result body of the merge loop in `performSearch`:

```go
resultKey := fmt.Sprintf("%s:%s", string(result.Type), result.Path)
if _, exists := sw.resultMap[resultKey]; exists { continue }
resultItem := NewSearchResult(result)   // plus description truncation
...
resultIndex := len(sw.resultItems)
resultsByType[result.Type] = append(resultsByType[result.Type], resultIndex)
sw.resultItems = append(sw.resultItems, resultItem)
sw.resultMap[resultKey] = resultIndex
``` -/
def mergeResult (st : ConsumerState) (result : SearchResult) : ConsumerState :=
  let key := resultKey result
  if (st.resultMap.lookup key).isSome then st
  else
    let item := truncateItem result
    let resultIndex := st.resultItems.length
    { st with
        resultsByType := appendByType st.resultsByType result.rtype resultIndex
        resultItems := st.resultItems ++ [item]
        resultMap := st.resultMap ++ [(key, resultIndex)] }

/-- One `case results, ok := <-resultsCh` iteration of `performSearch`'s
consumer loop, merging one delivered batch:

```go
if len(results) == 0 { continue }
if !anyResults { sw.resultsList.RemoveAll(); sw.selectedIndex = 0 }
anyResults = true
currentItemsCount := len(sw.resultItems)
for _, result := range results { ... }          // mergeResult
if currentItemsCount == 0 && len(sw.resultItems) > 0 {
    for _, item := range sw.resultItems { sw.resultsList.Add(item) }
    sw.resultItems[0].IsSelected = true
    sw.selectResult(0)
} else if currentItemsCount > 0 {
    sw.resultsList.RemoveAll()
    for _, item := range sw.resultItems { sw.resultsList.Add(item) }
}
``` -/
def mergeBatch (st : ConsumerState) (results : List SearchResult) : ConsumerState :=
  if results.length = 0 then st
  else
    let st := if !st.anyResults then { st with selectedIndex := 0 } else st
    let st := { st with anyResults := true }
    let currentItemsCount := st.resultItems.length
    let st := results.foldl mergeResult st
    if currentItemsCount = 0 ∧ st.resultItems.length > 0 then
      selectResult st 0
    else st

/-- Rendered order of a session that merges the delivered batches in delivery
order: the consumer appends surviving results batch by batch and rebuilds the
visible list from `resultItems` each time. -/
def renderedItems (batches : List (List SearchResult)) : List SearchResult :=
  (batches.foldl mergeBatch initialConsumerState).resultItems

/-! ## Go's `sort.Slice` (the stdlib pdqsort family, sort/zsortfunc.go)

`RegisterProvider` re-sorts the provider slice with `sort.Slice`, whose
documented contract explicitly does *not* guarantee stability.  Since claim
C5 asserts stability, the stdlib algorithm itself is embedded: `pdqsort_func`
with its helpers, exactly as generated in Go's `sort/zsortfunc.go` (Go 1.19
and later).  Loops are translated to fuel-based recursion; the fuel given at
the top level strictly dominates the number of loop iterations the algorithm
can perform, so it is never exhausted.  Array reads out of range return
`default`; every on-path access is in range. -/

/-- Read `data[i]`. -/
def aget [Inhabited α] (arr : Array α) (i : Nat) : α :=
  arr.getD i default

/-- `data.Swap(i, j)`. -/
def aswap (arr : Array α) (i j : Nat) : Array α :=
  if h : i < arr.size ∧ j < arr.size then arr.swap ⟨i, h.1⟩ ⟨j, h.2⟩ else arr

/-- Go `bits.Len(uint(n))`: bits needed to represent `n`; `bits.Len(0) = 0`. -/
def bitsLen (n : Nat) : Nat :=
  if n = 0 then 0 else Nat.log2 n + 1

/-- `nextPowerOfTwo(length) = 1 << bits.Len(uint(length))`. -/
def nextPowerOfTwo (length : Nat) : Nat :=
  1 <<< bitsLen length

/-- One step of Go's `xorshift` generator on `uint64`:
`*r ^= *r << 13; *r ^= *r >> 7; *r ^= *r << 17`. -/
def xorshiftNext (r : Nat) : Nat :=
  let r := (r ^^^ (r <<< 13)) % 2 ^ 64
  let r := r ^^^ (r >>> 7)
  (r ^^^ (r <<< 17)) % 2 ^ 64

/-- The inner loop of `insertionSort_func`
(`for j := i; j > a && data.Less(j, j-1); j-- { data.Swap(j, j-1) }`) viewed
on the already-processed segment left of the new element, nearest element
first: the new element swaps past each strictly greater neighbour. -/
def bubbleLeft (less : α → α → Bool) (x : α) : List α → List α
  | [] => [x]
  | y :: rev => if less x y then y :: bubbleLeft less x rev else x :: y :: rev

/-- `insertionSort_func(data, a, b)` as a function of the segment `[a, b)` it
sorts: the outer loop takes each element left to right and the inner loop
bubbles it left through the processed part. -/
def insertionSortList (less : α → α → Bool) (l : List α) : List α :=
  l.foldl (fun acc x => (bubbleLeft less x acc.reverse).reverse) []

/-- `insertionSort_func(data, a, b)`: sorts the segment `[a, b)` in place and
touches nothing outside it. -/
def insertionSortRange (less : α → α → Bool) (arr : Array α) (a b : Nat) : Array α :=
  let l := arr.toList
  (l.take a ++ insertionSortList less ((l.drop a).take (b - a)) ++ l.drop b).toArray

/-- The loop of `siftDown_func(data, lo, hi, first)`; `fuel` dominates the
strictly increasing `root`. -/
def siftDownLoop [Inhabited α] (less : α → α → Bool) (hi first : Nat) :
    Nat → Array α → Nat → Array α
  | 0, arr, _ => arr
  | fuel + 1, arr, root =>
    let child := 2 * root + 1
    if child ≥ hi then arr
    else
      let child :=
        if child + 1 < hi ∧ less (aget arr (first + child)) (aget arr (first + child + 1))
        then child + 1 else child
      if ¬ less (aget arr (first + root)) (aget arr (first + child)) then arr
      else siftDownLoop less hi first fuel (aswap arr (first + root) (first + child)) child

/-- `siftDown_func(data, lo, hi, first)`. -/
def siftDownRange [Inhabited α] (less : α → α → Bool) (arr : Array α)
    (lo hi first : Nat) : Array α :=
  siftDownLoop less hi first (hi + 1) arr lo

/-- Heap-build phase of `heapSort_func`:
`for i := (hi-1)/2; i >= 0; i-- { siftDown(data, i, hi, first) }`. -/
def heapBuild [Inhabited α] (less : α → α → Bool) (hi first : Nat)
    (arr : Array α) : Nat → Array α
  | 0 => siftDownRange less arr 0 hi first
  | i + 1 => heapBuild less hi first (siftDownRange less arr (i + 1) hi first) i

/-- Pop phase of `heapSort_func`:
`for i := hi - 1; i >= 0; i-- { data.Swap(first, first+i); siftDown(data, lo, i, first) }`. -/
def heapPop [Inhabited α] (less : α → α → Bool) (first : Nat)
    (arr : Array α) : Nat → Array α
  | 0 => siftDownRange less (aswap arr first first) 0 0 first
  | i + 1 =>
    let arr := aswap arr first (first + (i + 1))
    let arr := siftDownRange less arr 0 (i + 1) first
    heapPop less first arr i

/-- `heapSort_func(data, a, b)`. -/
def heapSortRange [Inhabited α] (less : α → α → Bool) (arr : Array α)
    (a b : Nat) : Array α :=
  let first := a
  let hi := b - a
  let arr := heapBuild less hi first arr ((hi - 1) / 2)
  if hi = 0 then arr else heapPop less first arr (hi - 1)

/-- `reverseRange_func(data, a, b)`; fuel dominates `j - i`. -/
def reverseRangeLoop : Nat → Array α → Nat → Nat → Array α
  | 0, arr, _, _ => arr
  | fuel + 1, arr, i, j =>
    if i < j then reverseRangeLoop fuel (aswap arr i j) (i + 1) (j - 1) else arr

/-- `reverseRange_func(data, a, b)`. -/
def reverseRange (arr : Array α) (a b : Nat) : Array α :=
  reverseRangeLoop arr.size arr a (b - 1)

/-- `order2_func(data, a, b, &swaps)`: orders two indices, counting a swap. -/
def order2 [Inhabited α] (less : α → α → Bool) (arr : Array α)
    (a b swaps : Nat) : Nat × Nat × Nat :=
  if less (aget arr b) (aget arr a) then (b, a, swaps + 1) else (a, b, swaps)

/-- `median_func(data, a, b, c, &swaps)`. -/
def medianIdx [Inhabited α] (less : α → α → Bool) (arr : Array α)
    (a b c swaps : Nat) : Nat × Nat :=
  let (a, b, swaps) := order2 less arr a b swaps
  let (b, c, swaps) := order2 less arr b c swaps
  let (_, b2, swaps) := order2 less arr a b swaps
  let _ := c
  (b2, swaps)

/-- `medianAdjacent_func(data, a, &swaps) = median(a-1, a, a+1)`. -/
def medianAdjacent [Inhabited α] (less : α → α → Bool) (arr : Array α)
    (a swaps : Nat) : Nat × Nat :=
  medianIdx less arr (a - 1) a (a + 1) swaps

/-- Go's `sortedHint`. -/
inductive SortedHint where
  | unknown
  | increasing
  | decreasing
  deriving Repr, DecidableEq

/-- `choosePivot_func(data, a, b)`; `maxSwaps = 12`, ninther above length 50. -/
def choosePivot [Inhabited α] (less : α → α → Bool) (arr : Array α)
    (a b : Nat) : Nat × SortedHint :=
  let l := b - a
  let i := a + l / 4 * 1
  let j := a + l / 4 * 2
  let k := a + l / 4 * 3
  let (j, swaps) :=
    if l ≥ 8 then
      let (i, j, k, swaps) :=
        if l ≥ 50 then
          let (i, swaps) := medianAdjacent less arr i 0
          let (j, swaps) := medianAdjacent less arr j swaps
          let (k, swaps) := medianAdjacent less arr k swaps
          (i, j, k, swaps)
        else (i, j, k, 0)
      medianIdx less arr i j k swaps
    else (j, 0)
  if swaps = 0 then (j, .increasing)
  else if swaps = 12 then (j, .decreasing)
  else (j, .unknown)

/-- `for i <= j && data.Less(i, a) { i++ }` of `partition_func`. -/
def partitionAdvanceI [Inhabited α] (less : α → α → Bool) (arr : Array α)
    (aIdx j : Nat) : Nat → Nat → Nat
  | 0, i => i
  | fuel + 1, i =>
    if i ≤ j ∧ less (aget arr i) (aget arr aIdx) then
      partitionAdvanceI less arr aIdx j fuel (i + 1)
    else i

/-- `for i <= j && !data.Less(j, a) { j-- }` of `partition_func`. -/
def partitionRetreatJ [Inhabited α] (less : α → α → Bool) (arr : Array α)
    (aIdx i : Nat) : Nat → Nat → Nat
  | 0, j => j
  | fuel + 1, j =>
    if i ≤ j ∧ ¬ less (aget arr j) (aget arr aIdx) then
      partitionRetreatJ less arr aIdx i fuel (j - 1)
    else j

/-- The unconditional `for { ... }` of `partition_func`: scan, swap, repeat
until the cursors cross. -/
def partitionLoop [Inhabited α] (less : α → α → Bool) (aIdx : Nat) :
    Nat → Array α → Nat → Nat → Array α × Nat × Nat
  | 0, arr, i, j => (arr, i, j)
  | fuel + 1, arr, i, j =>
    let i := partitionAdvanceI less arr aIdx j (arr.size + 1) i
    let j := partitionRetreatJ less arr aIdx i (arr.size + 1) j
    if i > j then (arr, i, j)
    else partitionLoop less aIdx fuel (aswap arr i j) (i + 1) (j - 1)

/-- `partition_func(data, a, b, pivot)`: Hoare partition around the pivot
moved to `a`; returns the new array, the pivot position, and
`alreadyPartitioned`. -/
def partitionRange [Inhabited α] (less : α → α → Bool) (arr : Array α)
    (a b pivot : Nat) : Array α × Nat × Bool :=
  let arr := aswap arr a pivot
  let i := partitionAdvanceI less arr a (b - 1) (arr.size + 1) (a + 1)
  let j := partitionRetreatJ less arr a i (arr.size + 1) (b - 1)
  if i > j then (aswap arr j a, j, true)
  else
    let arr := aswap arr i j
    let (arr, _, j) := partitionLoop less a (arr.size + 1) arr (i + 1) (j - 1)
    (aswap arr j a, j, false)

/-- `for i <= j && !data.Less(a, i) { i++ }` of `partitionEqual_func`. -/
def partitionEqAdvanceI [Inhabited α] (less : α → α → Bool) (arr : Array α)
    (aIdx j : Nat) : Nat → Nat → Nat
  | 0, i => i
  | fuel + 1, i =>
    if i ≤ j ∧ ¬ less (aget arr aIdx) (aget arr i) then
      partitionEqAdvanceI less arr aIdx j fuel (i + 1)
    else i

/-- `for i <= j && data.Less(a, j) { j-- }` of `partitionEqual_func`. -/
def partitionEqRetreatJ [Inhabited α] (less : α → α → Bool) (arr : Array α)
    (aIdx i : Nat) : Nat → Nat → Nat
  | 0, j => j
  | fuel + 1, j =>
    if i ≤ j ∧ less (aget arr aIdx) (aget arr j) then
      partitionEqRetreatJ less arr aIdx i fuel (j - 1)
    else j

/-- The `for { ... }` of `partitionEqual_func`. -/
def partitionEqLoop [Inhabited α] (less : α → α → Bool) (aIdx : Nat) :
    Nat → Array α → Nat → Nat → Array α × Nat
  | 0, arr, i, _ => (arr, i)
  | fuel + 1, arr, i, j =>
    let i := partitionEqAdvanceI less arr aIdx j (arr.size + 1) i
    let j := partitionEqRetreatJ less arr aIdx i (arr.size + 1) j
    if i > j then (arr, i)
    else partitionEqLoop less aIdx fuel (aswap arr i j) (i + 1) (j - 1)

/-- `partitionEqual_func(data, a, b, pivot)`: moves elements equal to the
pivot to the front; returns the first index past them. -/
def partitionEqualRange [Inhabited α] (less : α → α → Bool) (arr : Array α)
    (a b pivot : Nat) : Array α × Nat :=
  let arr := aswap arr a pivot
  partitionEqLoop less a (arr.size + 1) arr (a + 1) (b - 1)

/-- `for i < b && !data.Less(i, i-1) { i++ }`: the sorted-span scan in
`partialInsertionSort_func`. -/
def sortedScan [Inhabited α] (less : α → α → Bool) (arr : Array α) (b : Nat) :
    Nat → Nat → Nat
  | 0, i => i
  | fuel + 1, i =>
    if i < b ∧ ¬ less (aget arr i) (aget arr (i - 1)) then
      sortedScan less arr b fuel (i + 1)
    else i

/-- `for j := i - 1; j >= 1; j-- { if !data.Less(j, j-1) { break }; data.Swap(j, j-1) }`:
shift the smaller element left. -/
def shiftLeftFrom [Inhabited α] (less : α → α → Bool) (arr : Array α) :
    Nat → Array α
  | 0 => arr
  | j + 1 =>
    if ¬ less (aget arr (j + 1)) (aget arr j) then arr
    else shiftLeftFrom less (aswap arr (j + 1) j) j

/-- `for j := i + 1; j < b; j++ { if !data.Less(j, j-1) { break }; data.Swap(j, j-1) }`:
shift the greater element right. -/
def shiftRightFrom [Inhabited α] (less : α → α → Bool) (b : Nat) :
    Nat → Array α → Nat → Array α
  | 0, arr, _ => arr
  | fuel + 1, arr, j =>
    if j < b then
      if ¬ less (aget arr j) (aget arr (j - 1)) then arr
      else shiftRightFrom less b fuel (aswap arr j (j - 1)) (j + 1)
    else arr

/-- The `maxSteps = 5` loop of `partialInsertionSort_func`;
`shortestShifting = 50`. -/
def partInsertionSortLoop [Inhabited α] (less : α → α → Bool) (a b : Nat) :
    Nat → Array α → Nat → Array α × Bool
  | 0, arr, _ => (arr, false)
  | steps + 1, arr, i =>
    let i := sortedScan less arr b (b + 1) i
    if i = b then (arr, true)
    else if b - a < 50 then (arr, false)
    else
      let arr := aswap arr i (i - 1)
      let arr := if i - a ≥ 2 then shiftLeftFrom less arr (i - 1) else arr
      let arr := if b - i ≥ 2 then shiftRightFrom less b (b + 1) arr (i + 1) else arr
      partInsertionSortLoop less a b steps arr i

/-- `partialInsertionSort_func(data, a, b)`: sorts if the segment is short of
sorted by at most `maxSteps` adjacent out-of-order pairs; reports success. -/
def partInsertionSortRange [Inhabited α] (less : α → α → Bool) (arr : Array α)
    (a b : Nat) : Array α × Bool :=
  partInsertionSortLoop less a b 5 arr (a + 1)

/-- `breakPatterns_func(data, a, b)`: three pseudo-random swaps around the
middle, driven by the `xorshift` generator seeded with the length. -/
def breakPatternsRange (arr : Array α) (a b : Nat) : Array α :=
  let length := b - a
  if length ≥ 8 then
    let modulus := nextPowerOfTwo length
    let idx := a + length / 4 * 2 - 1
    let step := fun (st : Array α × Nat) (i : Nat) =>
      let (arr, random) := st
      let random := xorshiftNext random
      let other := random &&& (modulus - 1)
      let other := if other ≥ length then other - length else other
      (aswap arr (idx - 1 + i) (a + other), random)
    (([0, 1, 2].foldl step (arr, length % 2 ^ 64))).1
  else arr

/-- The iterative-plus-recursive body of `pdqsort_func(data, a, b, limit)`;
`maxInsertion = 12`.  `wasBalanced` and `wasPartitioned` are the loop-carried
flags, both `true` on entry.  `fuel` dominates the total number of loop
iterations and recursive calls. -/
def pdqsortLoop [Inhabited α] (less : α → α → Bool) :
    Nat → Array α → Nat → Nat → Nat → Bool → Bool → Array α
  | 0, arr, _, _, _, _, _ => arr
  | fuel + 1, arr, a, b, limit, wasBalanced, wasPartitioned =>
    let length := b - a
    if length ≤ 12 then insertionSortRange less arr a b
    else if limit = 0 then heapSortRange less arr a b
    else
      let (arr, limit) :=
        if ¬ wasBalanced then (breakPatternsRange arr a b, limit - 1)
        else (arr, limit)
      let (pivot, hint) := choosePivot less arr a b
      let (arr, pivot, hint) :=
        if hint = .decreasing then
          (reverseRange arr a b, (b - 1) - (pivot - a), SortedHint.increasing)
        else (arr, pivot, hint)
      let (arr, sortedNow) :=
        if wasBalanced ∧ wasPartitioned ∧ hint = .increasing then
          partInsertionSortRange less arr a b
        else (arr, false)
      if sortedNow then arr
      else if a > 0 ∧ ¬ less (aget arr (a - 1)) (aget arr pivot) then
        let (arr, mid) := partitionEqualRange less arr a b pivot
        pdqsortLoop less fuel arr mid b limit wasBalanced wasPartitioned
      else
        let (arr, mid, alreadyPartitioned) := partitionRange less arr a b pivot
        let wasPartitioned := alreadyPartitioned
        let leftLen := mid - a
        let rightLen := b - mid
        let balanceThreshold := length / 8
        let wasBalanced := min leftLen rightLen ≥ balanceThreshold
        if leftLen < rightLen then
          let arr := pdqsortLoop less fuel arr a mid limit true true
          pdqsortLoop less fuel arr (mid + 1) b limit wasBalanced wasPartitioned
        else
          let arr := pdqsortLoop less fuel arr (mid + 1) b limit true true
          pdqsortLoop less fuel arr a mid limit wasBalanced wasPartitioned

/-- `sort.Slice(x, less)` (Go 1.19+): pdqsort on the whole slice with
`limit := bits.Len(uint(length))`. -/
def sortSliceGo [Inhabited α] (less : α → α → Bool) (l : List α) : List α :=
  let length := l.length
  (pdqsortLoop less (length * length + 64 + 1) l.toArray 0 length
    (bitsLen length) true true).toList

/-! ## The registry (registry.go: Registry, NewRegistry, RegisterProvider,
ExecuteResult) -/

/-- The comparator `RegisterProvider` hands to `sort.Slice`:
`r.providers[i].Priority() < r.providers[j].Priority()`. -/
def providerLess (p q : Provider) : Bool :=
  p.priority < q.priority

instance : Inhabited Provider :=
  ⟨{ name := ""
     rtype := ""
     priority := 0
     canHandle := fun _ => false
     search := fun _ => ([], none)
     execute := fun _ => none }⟩

/-- Go struct `search.Registry` (the unused `resultsByPriority` field is a
dead map never read or written by any method; it is omitted). -/
structure Registry where
  providers : List Provider
  sentResults : List String

/-- `NewRegistry()`. -/
def newRegistry : Registry :=
  { providers := [], sentResults := [] }

/-- `RegisterProvider(provider)`:

```go
r.providers = append(r.providers, provider)
sort.Slice(r.providers, func(i, j int) bool {
    return r.providers[i].Priority() < r.providers[j].Priority()
})
``` -/
def registerProvider (r : Registry) (p : Provider) : Registry :=
  { r with providers := sortSliceGo providerLess (r.providers ++ [p]) }

/-- A whole registration sequence from a fresh registry. -/
def registerAll (ps : List Provider) : Registry :=
  ps.foldl registerProvider newRegistry

/-- `ExecuteResult(result)`:

```go
for _, provider := range r.providers {
    if provider.Type() == result.Type {
        return provider.Execute(result)
    }
}
return fmt.Errorf("no provider found for result type %s", result.Type)
``` -/
def executeResult (r : Registry) (result : SearchResult) : Option String :=
  match r.providers.find? (fun p => p.rtype == result.rtype) with
  | some p => p.execute result
  | none => some ("no provider found for result type " ++ result.rtype)

/-! ## Spec-side auxiliary functions used by the theorems -/

/-- The seen-key set after a `firstOccur` pass: the keys of `l` added (newest
first) to `seen`.  It coincides with the sent-set threading of the
collector's dedup fold. -/
def occSeen (seen : List String) : List SearchResult → List String
  | [] => seen
  | r :: rest =>
    if resultKey r ∈ seen then occSeen seen rest
    else occSeen (resultKey r :: seen) rest

/-- Stable insertion of a provider into a priority-sorted list: before the
first strictly higher-priority-value provider, hence after every provider of
equal priority.  This is what the Go insertion sort does to an
already-sorted slice with one element appended. -/
def stableInsert (x : Provider) : List Provider → List Provider
  | [] => [x]
  | y :: l => if x.priority < y.priority then x :: y :: l else y :: stableInsert x l

/-- Ascending priority order (the order `RegisterProvider` maintains). -/
def sortedByPriority (l : List Provider) : Prop :=
  l.Pairwise fun p q => p.priority ≤ q.priority

/-! ## Concrete fixtures used in evaluations and witnesses -/

/-- A worker that never observes cancellation. -/
def quietWorker : WorkerCtx :=
  { doneAtStart := false, doneAfterSearch := false, doneAtPublish := false }

/-- A session whose context is observed cancelled only at the collector's
final checkpoint (e.g. every worker already abandoned silently, so no batch
was ever published). -/
def cancelledAtEnd : CollectorSchedule :=
  { cancelSend := fun _ => false, ctxDoneAtEnd := true }

/-- An app result at path `/a`. -/
def resA : SearchResult :=
  { title := "A", description := "", path := "/a", rtype := TypeApp }

/-- An app result at path `/b`. -/
def resB : SearchResult :=
  { title := "B", description := "", path := "/b", rtype := TypeApp }

/-- An app result at path `/c`. -/
def resC : SearchResult :=
  { title := "C", description := "", path := "/c", rtype := TypeApp }

/-- Type `"a"`, path `"b:c"`: its key string is `"a:b:c"`. -/
def collideOne : SearchResult :=
  { title := "first", description := "", path := "b:c", rtype := "a" }

/-- Type `"a:b"`, path `"c"`: a different (Type, Path) pair with the same key
string `"a:b:c"`. -/
def collideTwo : SearchResult :=
  { title := "second", description := "", path := "c", rtype := "a:b" }

/-- The calculator's single result for query `"42"`. -/
def calcResult : SearchResult :=
  { title := "= 42", description := "Calculator", path := "42",
    rtype := TypeCalculator }

/-- The web provider's synthetic result. -/
def webResult : SearchResult :=
  { title := "Search the web", description := "Web search", path := "web:42",
    rtype := TypeWeb }

/-- A calculator-style provider at priority 1. -/
def calcProvider : Provider :=
  { name := "calculator", rtype := TypeCalculator, priority := 1,
    canHandle := fun _ => true, search := fun _ => ([calcResult], none),
    execute := fun _ => none }

/-- A web-style provider at priority 10. -/
def webProvider : Provider :=
  { name := "web", rtype := TypeWeb, priority := 10,
    canHandle := fun _ => true, search := fun _ => ([webResult], none),
    execute := fun _ => none }

/-- A provider whose `Search` always fails. -/
def failingProvider : Provider :=
  { name := "failing", rtype := TypeFile, priority := 5,
    canHandle := fun _ => true, search := fun _ => ([], some "boom"),
    execute := fun _ => none }

/-- A provider used to observe `ExecuteResult` routing. -/
def echoProvider : Provider :=
  { name := "echo", rtype := TypeApp, priority := 0,
    canHandle := fun _ => true, search := fun _ => ([], none),
    execute := fun r => some ("ran " ++ r.path) }

/-- A named dummy provider with a given priority (search returns nothing). -/
def mkProvider (nm : String) (pri : Int) : Provider :=
  { name := nm, rtype := TypeApp, priority := pri,
    canHandle := fun _ => true, search := fun _ => ([], none),
    execute := fun _ => none }

/-- Thirteen registrations: one priority-0, ten equal priority-1 providers
registered in the order `a b c d e f g h i j`, one priority-2, and a final
priority-0 provider.  The 13th registration sorts 13 elements, beyond
`sort.Slice`'s insertion-sort cutoff of 12. -/
def thirteenProviders : List Provider :=
  [mkProvider "low" 0, mkProvider "a" 1, mkProvider "b" 1, mkProvider "c" 1,
   mkProvider "d" 1, mkProvider "e" 1, mkProvider "f" 1, mkProvider "g" 1,
   mkProvider "h" 1, mkProvider "i" 1, mkProvider "j" 1, mkProvider "high" 2,
   mkProvider "last" 0]

/-! ## Lemmas: the collector's dedup filter -/

lemma foldl_dedupStep (batch : List SearchResult) :
    ∀ (acc : List SearchResult) (sent : List String),
      batch.foldl dedupStep (acc, sent) =
        (acc ++ firstOccur sent batch, occSeen sent batch) := by
  induction batch with
  | nil => intro acc sent; simp [firstOccur, occSeen]
  | cons r rest ih =>
    intro acc sent
    by_cases h : resultKey r ∈ sent
    · simp [dedupStep, firstOccur, occSeen, h, ih]
    · simp [dedupStep, firstOccur, occSeen, h, ih, List.append_assoc]

lemma filterUnique_eq (sent : List String) (batch : List SearchResult) :
    filterUnique sent batch = (firstOccur sent batch, occSeen sent batch) := by
  simp [filterUnique, foldl_dedupStep]

lemma mem_occSeen_of_mem (l : List SearchResult) :
    ∀ (seen : List String) (k : String), k ∈ seen → k ∈ occSeen seen l := by
  induction l with
  | nil => intro seen k hk; simpa [occSeen] using hk
  | cons r rest ih =>
    intro seen k hk
    by_cases h : resultKey r ∈ seen
    · simpa [occSeen, h] using ih seen k hk
    · simpa [occSeen, h] using ih (resultKey r :: seen) k (List.mem_cons_of_mem _ hk)

lemma resultKey_mem_occSeen (l : List SearchResult) :
    ∀ (seen : List String) (r : SearchResult),
      r ∈ firstOccur seen l → resultKey r ∈ occSeen seen l := by
  induction l with
  | nil => intro seen r hr; simp [firstOccur] at hr
  | cons x rest ih =>
    intro seen r hr
    by_cases h : resultKey x ∈ seen
    · simp only [firstOccur, if_pos h] at hr
      simpa [occSeen, h] using ih seen r hr
    · simp only [firstOccur, if_neg h, List.mem_cons] at hr
      rcases hr with hr | hr
      · subst hr
        simpa [occSeen, h] using
          mem_occSeen_of_mem rest (resultKey r :: seen) (resultKey r) (by simp)
      · simpa [occSeen, h] using ih (resultKey x :: seen) r hr

lemma resultKey_not_mem_seen (l : List SearchResult) :
    ∀ (seen : List String) (r : SearchResult),
      r ∈ firstOccur seen l → resultKey r ∉ seen := by
  induction l with
  | nil => intro seen r hr; simp [firstOccur] at hr
  | cons x rest ih =>
    intro seen r hr
    by_cases h : resultKey x ∈ seen
    · simp only [firstOccur, if_pos h] at hr
      exact ih seen r hr
    · simp only [firstOccur, if_neg h, List.mem_cons] at hr
      rcases hr with hr | hr
      · subst hr; exact h
      · intro hks
        exact ih (resultKey x :: seen) r hr (List.mem_cons_of_mem _ hks)

lemma firstOccur_keys_nodup (l : List SearchResult) :
    ∀ seen : List String, ((firstOccur seen l).map resultKey).Nodup := by
  induction l with
  | nil => intro seen; simp [firstOccur]
  | cons x rest ih =>
    intro seen
    by_cases h : resultKey x ∈ seen
    · simpa [firstOccur, h] using ih seen
    · simp only [firstOccur, if_neg h, List.map_cons, List.nodup_cons]
      refine ⟨?_, ih (resultKey x :: seen)⟩
      intro hmem
      rcases List.mem_map.mp hmem with ⟨r, hr, hkey⟩
      exact resultKey_not_mem_seen rest (resultKey x :: seen) r hr (by simp [hkey])

lemma firstOccur_append (l1 l2 : List SearchResult) :
    ∀ seen : List String,
      firstOccur seen (l1 ++ l2) =
        firstOccur seen l1 ++ firstOccur (occSeen seen l1) l2 := by
  induction l1 with
  | nil => intro seen; simp [firstOccur, occSeen]
  | cons x rest ih =>
    intro seen
    by_cases h : resultKey x ∈ seen
    · simp [firstOccur, occSeen, h, ih]
    · simp [firstOccur, occSeen, h, ih]

/-! ## Lemmas: the collector's delivery trace -/

lemma collectorRun_nil (sched : CollectorSchedule) (sent : List String) (idx : Nat) :
    collectorRun sched sent idx [] =
      if sched.ctxDoneAtEnd then []
      else [.closeResults, .closeErr, .doneSignal, .closeDone] := rfl

lemma collectorRun_cons (sched : CollectorSchedule) (sent : List String)
    (idx : Nat) (pr : PriorityResult) (rest : List PriorityResult) :
    collectorRun sched sent idx (pr :: rest) =
      if (firstOccur sent pr.results).length > 0 then
        if sched.cancelSend idx then
          [.closeResults, .closeErr, .doneSignal, .closeDone]
        else
          .deliver (firstOccur sent pr.results) ::
            collectorRun sched (occSeen sent pr.results) (idx + 1) rest
      else collectorRun sched (occSeen sent pr.results) idx rest := by
  simp [collectorRun, filterUnique_eq]

lemma noCancel_cancelSend (n : Nat) : noCancel.cancelSend n = false := rfl

lemma noCancel_ctxDoneAtEnd : noCancel.ctxDoneAtEnd = false := rfl

lemma deliveredResults_nil : deliveredResults [] = [] := rfl

lemma deliveredResults_cons_deliver (b : List SearchResult) (tr : List Event) :
    deliveredResults (.deliver b :: tr) = b ++ deliveredResults tr := by
  simp [deliveredResults, deliveredBatches]

lemma deliveredResults_closes :
    deliveredResults [.closeResults, .closeErr, .doneSignal, .closeDone] = [] := rfl

lemma deliveredResults_noCancel (arrivals : List PriorityResult) :
    ∀ (sent : List String) (idx : Nat),
      deliveredResults (collectorRun noCancel sent idx arrivals) =
        firstOccur sent (arrivals.flatMap PriorityResult.results) := by
  induction arrivals with
  | nil =>
    intro sent idx
    simp [collectorRun_nil, noCancel_ctxDoneAtEnd, deliveredResults,
      deliveredBatches, firstOccur]
  | cons pr rest ih =>
    intro sent idx
    rw [List.flatMap_cons, firstOccur_append, collectorRun_cons,
      noCancel_cancelSend]
    by_cases h : (firstOccur sent pr.results).length > 0
    · rw [if_pos h, if_neg (by simp), deliveredResults_cons_deliver, ih]
    · have hempty : firstOccur sent pr.results = [] :=
        List.length_eq_zero.mp (Nat.eq_zero_of_not_pos h)
      rw [if_neg h, ih, hempty, List.nil_append]

lemma delivered_fresh_nodup (arrivals : List PriorityResult) :
    ∀ (sched : CollectorSchedule) (sent : List String) (idx : Nat),
      (∀ r ∈ deliveredResults (collectorRun sched sent idx arrivals),
          resultKey r ∉ sent) ∧
      ((deliveredResults (collectorRun sched sent idx arrivals)).map
          resultKey).Nodup := by
  induction arrivals with
  | nil =>
    intro sched sent idx
    rw [collectorRun_nil]
    by_cases h : sched.ctxDoneAtEnd <;>
      simp [h, deliveredResults, deliveredBatches]
  | cons pr rest ih =>
    intro sched sent idx
    rw [collectorRun_cons]
    by_cases h : (firstOccur sent pr.results).length > 0
    · rw [if_pos h]
      by_cases hc : sched.cancelSend idx
      · rw [if_pos hc]
        simp [deliveredResults_closes]
      · rw [if_neg hc, deliveredResults_cons_deliver]
        have hrec := ih sched (occSeen sent pr.results) (idx + 1)
        constructor
        · intro r hr
          rcases List.mem_append.mp hr with hr | hr
          · exact resultKey_not_mem_seen pr.results sent r hr
          · intro hks
            exact hrec.1 r hr
              (mem_occSeen_of_mem pr.results sent (resultKey r) hks)
        · rw [List.map_append]
          refine List.Nodup.append (firstOccur_keys_nodup pr.results sent)
            hrec.2 ?_
          intro k hk1 hk2
          rcases List.mem_map.mp hk1 with ⟨r, hr, hkey⟩
          rcases List.mem_map.mp hk2 with ⟨s, hs, hkey2⟩
          have h1 : k ∈ occSeen sent pr.results := by
            rw [← hkey]; exact resultKey_mem_occSeen pr.results sent r hr
          have h2 : resultKey s ∉ occSeen sent pr.results := hrec.1 s hs
          rw [hkey2] at h2
          exact h2 h1
    · rw [if_neg h]
      have hrec := ih sched (occSeen sent pr.results) idx
      refine ⟨?_, hrec.2⟩
      intro r hr hks
      exact hrec.1 r hr (mem_occSeen_of_mem pr.results sent (resultKey r) hks)

/-- `Nodup` of a mapped list gives pairwise distinctness of the images. -/
lemma nodup_map_pairwise {α β : Type} (f : α → β) :
    ∀ l : List α, (l.map f).Nodup → l.Pairwise fun a b => f a ≠ f b := by
  intro l
  induction l with
  | nil => intro; simp
  | cons x rest ih =>
    intro h
    simp only [List.map_cons, List.nodup_cons] at h
    refine List.Pairwise.cons ?_ (ih h.2)
    intro b hb heq
    exact h.1 (List.mem_map.mpr ⟨b, hb, heq.symm⟩)

lemma deliveredBatches_nil : deliveredBatches [] = [] := rfl

lemma deliveredBatches_cons_deliver (b : List SearchResult) (tr : List Event) :
    deliveredBatches (.deliver b :: tr) = b :: deliveredBatches tr := by
  simp [deliveredBatches]

lemma deliveredBatches_closes :
    deliveredBatches [.closeResults, .closeErr, .doneSignal, .closeDone] = [] := rfl

/-! ## C2: deduplication -/

/-- C2: the claim as stated is false on the code.  The dedup key is the
concatenated string `Type ++ ":" ++ Path`, so the pairs `("a", "b:c")` and
`("a:b", "c")` collide on the key `"a:b:c"`: the first-arriving result with
the (Kind, Path) pair `("a:b", "c")` — `collideTwo`, whose pair no earlier
result shares — is dropped instead of emitted. -/
theorem C2_counterexample :
    deliveredResults (collectorRun noCancel [] 0
        [⟨1, [collideOne]⟩, ⟨2, [collideTwo]⟩]) = [collideOne]
    ∧ ¬ (collideOne.rtype = collideTwo.rtype ∧ collideOne.path = collideTwo.path) := by
  constructor
  · rfl
  · decide

/-- C2 (amended): deduplication is by the key string `Type ++ ":" ++ Path`.
Along any uncancelled session, the delivered results are exactly the
first-arriving result of each distinct key string of the arrival stream
(later results with an already-seen key are dropped, whatever their provider,
Title or Description); and in every session, cancelled or not, no two
delivered results share a key string — in particular no two delivered
results share the same (Kind, Path) pair. -/
theorem C2_dedup_first_key_wins :
    (∀ (sent : List String) (arrivals : List PriorityResult),
      deliveredResults (collectorRun noCancel sent 0 arrivals) =
        firstOccur sent (arrivals.flatMap PriorityResult.results))
    ∧ (∀ (sched : CollectorSchedule) (sent : List String) (idx : Nat)
        (arrivals : List PriorityResult),
        ((deliveredResults (collectorRun sched sent idx arrivals)).map
            resultKey).Nodup
        ∧ (deliveredResults (collectorRun sched sent idx arrivals)).Pairwise
            fun r s => ¬ (r.rtype = s.rtype ∧ r.path = s.path)) := by
  constructor
  · intro sent arrivals
    exact deliveredResults_noCancel arrivals sent 0
  · intro sched sent idx arrivals
    have hnodup := (delivered_fresh_nodup arrivals sched sent idx).2
    refine ⟨hnodup, ?_⟩
    have hpw := nodup_map_pairwise resultKey _ hnodup
    refine hpw.imp ?_
    intro r s hne ⟨ht, hp⟩
    exact hne (by simp [resultKey, ht, hp])

/-! ## C3: worker-level cancellation -/

/-- C3: a provider worker that observes cancellation at the checkpoint
before its `Search` call, or at the checkpoint after `Search` returns and
before publishing, publishes nothing — no results batch and no error —
whatever its search outcome and however its later publish select would have
resolved. -/
theorem C3_cancelled_worker_publishes_nothing :
    ∀ (w : WorkerCtx) (p : Provider) (q : String),
      w.doneAtStart = true ∨ w.doneAfterSearch = true →
      workerTask w p q = none := by
  intro w p q h
  rcases hpq : p.search q with ⟨results, err⟩
  rcases h with h | h
  · simp [workerTask, h]
  · by_cases h0 : w.doneAtStart
    · simp [workerTask, h0]
    · simp [workerTask, h0, hpq, h]

/-- C3 witness: a worker that observes cancellation at the post-search
checkpoint publishes nothing. -/
theorem C3_witness :
    (({ quietWorker with doneAfterSearch := true } : WorkerCtx).doneAtStart = true
      ∨ ({ quietWorker with doneAfterSearch := true } : WorkerCtx).doneAfterSearch
          = true)
    ∧ workerTask { quietWorker with doneAfterSearch := true } calcProvider "42"
        = none := by
  refine ⟨Or.inr rfl, ?_⟩
  exact C3_cancelled_worker_publishes_nothing _ calcProvider "42" (Or.inr rfl)

/-! ## C4: channel closing at session end -/

/-- C4: the claim as stated is false on the code.  Terminal case in which
every provider task completed by cancellation (no batch was published) and
the collector's final `select` finds `ctx.Done()` ready: the collector exits
through the empty cancellation arm, so the results channel is not closed,
the error channel is not closed, and done is never signalled. -/
theorem C4_counterexample :
    (collectorRun cancelledAtEnd [] 0 []).count Event.closeResults = 0
    ∧ (collectorRun cancelledAtEnd [] 0 []).count Event.closeErr = 0
    ∧ (collectorRun cancelledAtEnd [] 0 []).count Event.doneSignal = 0
    ∧ (collectorRun cancelledAtEnd [] 0 []).count Event.closeDone = 0 := by
  decide

/-- C4 (amended): the collector closes the channels and signals done at most
once; and it does so exactly once in every terminal case in which its final
drain checkpoint does not observe the context cancelled (including any
mid-send cancellation, which closes and signals on the way out).  In the one
remaining terminal case — all batches drained and `ctx.Done()` observed at
the final `select` — it closes nothing and does not signal done. -/
theorem C4_close_once_unless_cancelled_at_end :
    ∀ (sched : CollectorSchedule) (sent : List String) (idx : Nat)
      (arrivals : List PriorityResult),
      ∀ e ∈ ([.closeResults, .closeErr, .doneSignal, .closeDone] : List Event),
        (collectorRun sched sent idx arrivals).count e ≤ 1
        ∧ (sched.ctxDoneAtEnd = false →
            (collectorRun sched sent idx arrivals).count e = 1) := by
  intro sched sent idx arrivals
  induction arrivals generalizing sent idx with
  | nil =>
    intro e he
    rw [collectorRun_nil]
    by_cases h : sched.ctxDoneAtEnd
    · simp [h]
    · fin_cases he <;> simp [h]
  | cons pr rest ih =>
    intro e he
    rw [collectorRun_cons]
    by_cases h : (firstOccur sent pr.results).length > 0
    · rw [if_pos h]
      by_cases hc : sched.cancelSend idx
      · rw [if_pos hc]
        fin_cases he <;> simp
      · rw [if_neg hc]
        have hrec := ih (occSeen sent pr.results) (idx + 1) e he
        fin_cases he <;>
          simpa [List.count_cons] using hrec
    · rw [if_neg h]
      exact ih (occSeen sent pr.results) idx e he

/-- C4 witness: in an uncancelled empty session each channel action happens
exactly once. -/
theorem C4_witness :
    (Event.closeResults ∈
      ([.closeResults, .closeErr, .doneSignal, .closeDone] : List Event))
    ∧ ((collectorRun noCancel [] 0 []).count Event.closeResults ≤ 1
      ∧ (noCancel.ctxDoneAtEnd = false →
          (collectorRun noCancel [] 0 []).count Event.closeResults = 1)) := by
  refine ⟨by decide, ?_⟩
  exact C4_close_once_unless_cancelled_at_end noCancel [] 0 [] Event.closeResults
    (by decide)

/-! ## C6: the empty query -/

/-- C6: `SearchAsync` on the empty query performs no provider call — neither
`CanHandle` nor a worker spawn that would run `Search` — and immediately
closes the results channel, signals and closes done, and closes the error
channel. -/
theorem C6_empty_query_short_circuit :
    ∀ providers : List Provider,
      searchAsyncDispatch providers "" =
        [.chan .closeResults, .chan .doneSignal, .chan .closeDone, .chan .closeErr]
      ∧ (searchAsyncDispatch providers "").filter DispatchEvent.isProviderCall
          = [] := by
  intro providers
  have h : searchAsyncDispatch providers "" =
      [.chan .closeResults, .chan .doneSignal, .chan .closeDone, .chan .closeErr] := by
    simp [searchAsyncDispatch]
  refine ⟨h, ?_⟩
  rw [h]
  decide

/-! ## C7: error containment -/

/-- C7: a provider whose `Search` errors publishes at most an error on the
error channel — never a results batch — and, independently, every result
that is the first arrival of its key in the batch stream is delivered, so an
error from one provider never removes another provider's successful results
from the session's deliveries. -/
theorem C7_error_never_blocks_siblings :
    (∀ (w : WorkerCtx) (p : Provider) (q : String) (e : String),
        (p.search q).2 = some e →
        workerTask w p q = none ∨ workerTask w p q = some (.errorPub e))
    ∧ (∀ (sent : List String) (arrivals : List PriorityResult) (r : SearchResult),
        r ∈ firstOccur sent (arrivals.flatMap PriorityResult.results) →
        r ∈ deliveredResults (collectorRun noCancel sent 0 arrivals)) := by
  constructor
  · intro w p q e he
    rcases hpq : p.search q with ⟨results, err⟩
    rw [hpq] at he
    simp only at he
    by_cases h0 : w.doneAtStart
    · left; simp [workerTask, h0]
    · by_cases h1 : w.doneAfterSearch
      · left; simp [workerTask, h0, h1, hpq]
      · by_cases h2 : w.doneAtPublish
        · left; simp [workerTask, h0, h1, h2, hpq, he]
        · right; simp [workerTask, h0, h1, h2, hpq, he]
  · intro sent arrivals r hr
    rw [deliveredResults_noCancel]
    exact hr

/-- C7 witness: the failing provider publishes only its error, and a sibling
batch's fresh result is still delivered. -/
theorem C7_witness :
    ((failingProvider.search "q").2 = some "boom")
    ∧ (workerTask quietWorker failingProvider "q" = none
        ∨ workerTask quietWorker failingProvider "q"
            = some (.errorPub "boom"))
    ∧ (calcResult ∈ firstOccur []
        (([⟨1, [calcResult]⟩] : List PriorityResult).flatMap PriorityResult.results))
    ∧ calcResult ∈ deliveredResults (collectorRun noCancel [] 0 [⟨1, [calcResult]⟩]) := by
  refine ⟨rfl, ?_, by decide, ?_⟩
  · exact C7_error_never_blocks_siblings.1 quietWorker failingProvider "q" "boom" rfl
  · exact C7_error_never_blocks_siblings.2 [] [⟨1, [calcResult]⟩] calcResult (by decide)

/-! ## C8: ExecuteResult routing -/

/-- C8: if some registered provider's Type equals the result's Type,
`ExecuteResult` returns exactly that (first such) provider's `Execute` value
on the result; otherwise it returns the "no provider found for result type"
error. -/
theorem C8_execute_result_routing :
    ∀ (r : Registry) (res : SearchResult),
      ((∃ p ∈ r.providers, p.rtype = res.rtype) →
        ∃ p ∈ r.providers, p.rtype = res.rtype ∧
          executeResult r res = p.execute res)
      ∧ ((∀ p ∈ r.providers, p.rtype ≠ res.rtype) →
          executeResult r res =
            some ("no provider found for result type " ++ res.rtype)) := by
  intro r res
  constructor
  · rintro ⟨p0, hp0, hty⟩
    cases hfind : r.providers.find? (fun p => p.rtype == res.rtype) with
    | none =>
      exfalso
      have := List.find?_eq_none.mp hfind p0 hp0
      simp [hty] at this
    | some p =>
      refine ⟨p, List.mem_of_find?_eq_some hfind, ?_, ?_⟩
      · have := List.find?_some hfind
        simpa using this
      · simp [executeResult, hfind]
  · intro hall
    have hnone : r.providers.find? (fun p => p.rtype == res.rtype) = none := by
      rw [List.find?_eq_none]
      intro p hp
      simpa using hall p hp
    simp [executeResult, hnone]

/-- C8 witness: a one-provider registry routes a matching result to that
provider's `Execute` and rejects a result of an unknown type. -/
theorem C8_witness :
    (∃ p ∈ (Registry.mk [echoProvider] []).providers, p.rtype = resA.rtype)
    ∧ (∃ p ∈ (Registry.mk [echoProvider] []).providers, p.rtype = resA.rtype ∧
        executeResult (Registry.mk [echoProvider] []) resA = p.execute resA) := by
  refine ⟨⟨echoProvider, by simp, rfl⟩, ?_⟩
  exact (C8_execute_result_routing (Registry.mk [echoProvider] []) resA).1
    ⟨echoProvider, by simp, rfl⟩

/-! ## C10: no empty batch is ever delivered -/

/-- C10: a worker publishes a batch only when its provider returned at least
one result, and the collector forwards only batches in which at least one
result survived deduplication, so every batch on the results channel is
non-empty. -/
theorem C10_delivered_batches_nonempty :
    (∀ (w : WorkerCtx) (p : Provider) (q : String) (pr : PriorityResult),
        workerTask w p q = some (.batch pr) → pr.results ≠ [])
    ∧ (∀ (sched : CollectorSchedule) (sent : List String) (idx : Nat)
        (arrivals : List PriorityResult) (b : List SearchResult),
        b ∈ deliveredBatches (collectorRun sched sent idx arrivals) → b ≠ []) := by
  constructor
  · intro w p q pr h
    rcases hpq : p.search q with ⟨results, err⟩
    by_cases h0 : w.doneAtStart
    · simp [workerTask, h0] at h
    · by_cases h1 : w.doneAfterSearch
      · simp [workerTask, h0, h1, hpq] at h
      · cases err with
        | some e =>
          by_cases h2 : w.doneAtPublish <;>
            simp [workerTask, h0, h1, h2, hpq] at h
        | none =>
          by_cases hlen : results.length > 0
          · by_cases h2 : w.doneAtPublish
            · simp [workerTask, h0, h1, h2, hpq, hlen] at h
            · simp [workerTask, h0, h1, h2, hpq, hlen] at h
              rw [← h]
              simpa using List.length_pos.mp hlen
          · simp [workerTask, h0, h1, hpq, hlen] at h
  · intro sched sent idx arrivals
    induction arrivals generalizing sent idx with
    | nil =>
      intro b hb
      rw [collectorRun_nil] at hb
      by_cases h : sched.ctxDoneAtEnd <;> simp [h, deliveredBatches] at hb
    | cons pr rest ih =>
      intro b hb
      rw [collectorRun_cons] at hb
      by_cases h : (firstOccur sent pr.results).length > 0
      · rw [if_pos h] at hb
        by_cases hc : sched.cancelSend idx
        · rw [if_pos hc] at hb
          simp [deliveredBatches_closes] at hb
        · rw [if_neg hc, deliveredBatches_cons_deliver] at hb
          rcases List.mem_cons.mp hb with hb | hb
          · subst hb
            exact List.length_pos.mp h
          · exact ih (occSeen sent pr.results) (idx + 1) b hb
      · rw [if_neg h] at hb
        exact ih (occSeen sent pr.results) idx b hb

/-- C10 witness: a concrete worker publication and a concrete delivery are
both non-empty. -/
theorem C10_witness :
    (workerTask quietWorker calcProvider "42"
        = some (.batch ⟨1, [calcResult]⟩))
    ∧ ([calcResult] ≠ ([] : List SearchResult))
    ∧ ([webResult] ∈ deliveredBatches (collectorRun noCancel [] 0 [⟨10, [webResult]⟩]))
    ∧ ([webResult] ≠ ([] : List SearchResult)) := by
  refine ⟨rfl, ?_, by decide, ?_⟩
  · exact C10_delivered_batches_nonempty.1 quietWorker calcProvider "42"
      ⟨1, [calcResult]⟩ rfl
  · exact C10_delivered_batches_nonempty.2 noCancel [] 0 [⟨10, [webResult]⟩]
      [webResult] (by decide)

/-! ## C1: rendered order versus provider priority -/

/-- C1: the rendered order is the batch arrival order, not the priority
order.  Calculator has priority 1, Web priority 10; when Web's batch reaches
the collector first, the session renders Web's result before Calculator's.
The collector forwards batches as they arrive (the priority tag of each
batch and the `resultsByPriority` field are never used), and the consumer
appends in delivery order (its `resultsByType` map is never read), so a
lower-`Priority()` provider's results do not precede a higher one's —
contradicting `SearchAsync`'s own documentation ("ordered by provider
priority") and the claim. -/
theorem C1_rendered_order_follows_arrival :
    workerTask quietWorker calcProvider "42" = some (.batch ⟨1, [calcResult]⟩)
    ∧ workerTask quietWorker webProvider "42" = some (.batch ⟨10, [webResult]⟩)
    ∧ calcProvider.priority < webProvider.priority
    ∧ renderedItems (deliveredBatches (collectorRun noCancel [] 0
        [⟨10, [webResult]⟩, ⟨1, [calcResult]⟩])) = [webResult, calcResult] := by
  exact ⟨rfl, rfl, by decide, by rfl⟩

/-! ## C9: selection on rebuild -/

lemma mergeResult_selectedIndex (st : ConsumerState) (r : SearchResult) :
    (mergeResult st r).selectedIndex = st.selectedIndex := by
  unfold mergeResult
  by_cases h : (st.resultMap.lookup (resultKey r)).isSome <;> simp [h]

lemma foldl_mergeResult_selectedIndex (batch : List SearchResult) :
    ∀ st : ConsumerState,
      (batch.foldl mergeResult st).selectedIndex = st.selectedIndex := by
  induction batch with
  | nil => intro st; rfl
  | cons r rest ih =>
    intro st
    rw [List.foldl_cons, ih (mergeResult st r), mergeResult_selectedIndex]

lemma selectResult_resultItems (st : ConsumerState) (i : Int) :
    (selectResult st i).resultItems = st.resultItems := by
  unfold selectResult
  split
  · rfl
  · rfl

lemma selectResult_zero (st : ConsumerState) (h : st.resultItems ≠ []) :
    (selectResult st 0).selectedIndex = 0 := by
  unfold selectResult
  have hlen : st.resultItems.length ≠ 0 := by simpa using h
  rw [if_neg hlen]
  have h1 : ¬ ((0 : Int) < 0) := by decide
  have h2 : ¬ ((0 : Int) ≥ (st.resultItems.length : Int)) := by
    simp only [ge_iff_le, not_le]
    exact_mod_cast Nat.pos_of_ne_zero hlen
  simp [h1, h2]

/-- C9: the claim as stated is false on the code.  A session merges a first
batch (selection 0), the user presses Down (selection 1), then a second
batch arrives and the visible list is rebuilt with the new item — but the
selected index stays 1 instead of becoming 0. -/
theorem C9_counterexample :
    (mergeBatch (selectNextResult (mergeBatch initialConsumerState [resA, resB]))
        [resC]).resultItems = [resA, resB, resC]
    ∧ (mergeBatch (selectNextResult (mergeBatch initialConsumerState [resA, resB]))
        [resC]).selectedIndex ≠ 0 := by
  exact ⟨by rfl, by decide⟩

/-- C9 (amended): merging a batch into an empty item list selects index 0;
merging any further batch into a session that already has items rebuilds the
list but leaves the selected index unchanged. -/
theorem C9_selection_reset_only_on_first_batch :
    ∀ (st : ConsumerState) (batch : List SearchResult),
      (st.resultItems = [] → (mergeBatch st batch).resultItems ≠ [] →
        (mergeBatch st batch).selectedIndex = 0)
      ∧ (st.anyResults = true → st.resultItems ≠ [] →
        (mergeBatch st batch).selectedIndex = st.selectedIndex) := by
  intro st batch
  by_cases hb : batch.length = 0
  · constructor
    · intro h1 h2
      rw [mergeBatch, if_pos hb] at h2 ⊢
      exact absurd h1 h2
    · intro _ _
      rw [mergeBatch, if_pos hb]
  · have hitems1 :
        (if !st.anyResults then { st with selectedIndex := 0 } else st).resultItems
          = st.resultItems := by
      by_cases h : !st.anyResults <;> simp [h]
    constructor
    · intro h1 h2
      rw [mergeBatch, if_neg hb] at h2 ⊢
      dsimp only at h2 ⊢
      split at h2 <;> rename_i hA
      · rw [if_pos hA]
        split at h2 <;> rename_i hcond
        · rw [if_pos hcond]
          exact selectResult_zero _ (by rwa [selectResult_resultItems] at h2)
        · exact absurd ⟨by simp [h1], List.length_pos.mpr h2⟩ hcond
      · rw [if_neg hA]
        split at h2 <;> rename_i hcond
        · rw [if_pos hcond]
          exact selectResult_zero _ (by rwa [selectResult_resultItems] at h2)
        · exact absurd ⟨by simp [h1], List.length_pos.mpr h2⟩ hcond
    · intro h1 h2
      rw [mergeBatch, if_neg hb]
      dsimp only
      have hany : (!st.anyResults) = false := by rw [h1]; rfl
      rw [hany]
      have hlen : st.resultItems.length ≠ 0 := by simpa using h2
      simp only [Bool.false_eq_true, if_false]
      rw [if_neg (by
        rintro ⟨hcontra, -⟩
        exact hlen hcontra)]
      exact foldl_mergeResult_selectedIndex batch { st with anyResults := true }

/-- C9 witness: a later-batch merge preserves a non-zero selection. -/
theorem C9_witness :
    ((selectNextResult (mergeBatch initialConsumerState [resA, resB])).anyResults
        = true)
    ∧ ((selectNextResult (mergeBatch initialConsumerState [resA, resB])).resultItems
        ≠ [])
    ∧ (mergeBatch (selectNextResult (mergeBatch initialConsumerState [resA, resB]))
          [resC]).selectedIndex
        = (selectNextResult (mergeBatch initialConsumerState [resA, resB])).selectedIndex := by
  refine ⟨by decide, by decide, ?_⟩
  exact (C9_selection_reset_only_on_first_batch
    (selectNextResult (mergeBatch initialConsumerState [resA, resB])) [resC]).2
    (by decide) (by decide)

/-! ## C5: registration order

`sort.Slice` runs a plain insertion sort whenever the slice has at most 12
elements; the lemmas below characterize that regime exactly and show it is
stable.  The 13-element counterexample exercises the pdqsort partition
path, which is not stable. -/

set_option maxHeartbeats 4000000 in
lemma sortSliceGo_le_twelve [Inhabited α] (less : α → α → Bool) (l : List α)
    (h : l.length ≤ 12) : sortSliceGo less l = insertionSortList less l := by
  rw [show sortSliceGo less l = (pdqsortLoop less (l.length * l.length + 64 + 1)
      l.toArray 0 l.length (bitsLen l.length) true true).toList from rfl]
  rw [pdqsortLoop]
  rw [if_pos (show l.length - 0 ≤ 12 by simpa using h)]
  rw [insertionSortRange]
  simp

lemma insertionSortList_append_singleton (less : α → α → Bool)
    (l : List α) (x : α) :
    insertionSortList less (l ++ [x]) =
      (bubbleLeft less x (insertionSortList less l).reverse).reverse := by
  simp [insertionSortList, List.foldl_append]

lemma stableInsert_append_last (x y : Provider) (h : x.priority < y.priority) :
    ∀ l : List Provider, stableInsert x (l ++ [y]) = stableInsert x l ++ [y] := by
  intro l
  induction l with
  | nil => simp [stableInsert, h]
  | cons z l ih =>
    by_cases hz : x.priority < z.priority
    · simp [stableInsert, hz]
    · simp [stableInsert, hz, ih]

lemma stableInsert_all_le (x : Provider) :
    ∀ l : List Provider, (∀ z ∈ l, ¬ x.priority < z.priority) →
      stableInsert x l = l ++ [x] := by
  intro l
  induction l with
  | nil => simp [stableInsert]
  | cons z l ih =>
    intro h
    have hz : ¬ x.priority < z.priority := h z (by simp)
    simp only [stableInsert, if_neg hz, List.cons_append, List.cons.injEq,
      true_and]
    exact ih fun w hw => h w (List.mem_cons_of_mem _ hw)

lemma bubbleLeft_reverse_eq_stableInsert (x : Provider) :
    ∀ r : List Provider, sortedByPriority r.reverse →
      (bubbleLeft providerLess x r).reverse = stableInsert x r.reverse := by
  intro r
  induction r with
  | nil => intro; simp [bubbleLeft, stableInsert]
  | cons y r ih =>
    intro hs
    rw [List.reverse_cons] at hs
    have hsr : sortedByPriority r.reverse :=
      (List.pairwise_append.mp hs).1
    have hylast : ∀ z ∈ r.reverse, z.priority ≤ y.priority := by
      intro z hz
      exact (List.pairwise_append.mp hs).2.2 z hz y (by simp)
    by_cases hxy : providerLess x y
    · have hlt : x.priority < y.priority := by
        simpa [providerLess] using hxy
      simp only [bubbleLeft, if_pos hxy, List.reverse_cons]
      rw [ih hsr, stableInsert_append_last x y hlt]
    · have hge : ¬ x.priority < y.priority := by
        simpa [providerLess] using hxy
      have hall : ∀ z ∈ r.reverse ++ [y], ¬ x.priority < z.priority := by
        intro z hz
        rcases List.mem_append.mp hz with hz | hz
        · intro hlt
          exact hge (lt_of_lt_of_le hlt (hylast z hz))
        · rw [List.mem_singleton.mp hz]
          exact hge
      simp only [bubbleLeft, if_neg hxy, List.reverse_cons]
      rw [stableInsert_all_le x (r.reverse ++ [y]) hall]

lemma insertionSortList_sorted_id :
    ∀ l : List Provider, sortedByPriority l →
      insertionSortList providerLess l = l := by
  intro l
  induction l using List.reverseRecOn with
  | nil => intro; rfl
  | append_singleton l x ih =>
    intro hs
    have hsl : sortedByPriority l := (List.pairwise_append.mp hs).1
    have hall : ∀ z ∈ l, z.priority ≤ x.priority := by
      intro z hz
      exact (List.pairwise_append.mp hs).2.2 z hz x (by simp)
    rw [insertionSortList_append_singleton, ih hsl,
      bubbleLeft_reverse_eq_stableInsert x l.reverse (by simpa using hsl)]
    rw [List.reverse_reverse]
    exact stableInsert_all_le x l fun z hz => not_lt.mpr (hall z hz)

lemma mem_stableInsert (x z : Provider) :
    ∀ l : List Provider, z ∈ stableInsert x l ↔ z = x ∨ z ∈ l := by
  intro l
  induction l with
  | nil => simp [stableInsert]
  | cons y l ih =>
    by_cases hxy : x.priority < y.priority
    · simp [stableInsert, hxy]
    · simp only [stableInsert, if_neg hxy, List.mem_cons, ih]
      tauto

lemma stableInsert_sorted (x : Provider) :
    ∀ l : List Provider, sortedByPriority l →
      sortedByPriority (stableInsert x l) := by
  intro l
  induction l with
  | nil => intro; simp [stableInsert, sortedByPriority]
  | cons y l ih =>
    intro hs
    have hy : ∀ z ∈ l, y.priority ≤ z.priority :=
      fun z hz => List.rel_of_pairwise_cons hs hz
    have hsl : sortedByPriority l := (List.pairwise_cons.mp hs).2
    by_cases hxy : x.priority < y.priority
    · simp only [stableInsert, if_pos hxy]
      refine List.Pairwise.cons ?_ hs
      intro z hz
      rcases List.mem_cons.mp hz with hz | hz
      · exact le_of_lt (hz ▸ hxy)
      · exact le_of_lt (lt_of_lt_of_le hxy (hy z hz))
    · simp only [stableInsert, if_neg hxy]
      refine List.Pairwise.cons ?_ (ih hsl)
      intro z hz
      rcases (mem_stableInsert x z l).mp hz with hz | hz
      · exact hz ▸ not_lt.mp hxy
      · exact hy z hz

lemma stableInsert_length (x : Provider) :
    ∀ l : List Provider, (stableInsert x l).length = l.length + 1 := by
  intro l
  induction l with
  | nil => rfl
  | cons y l ih =>
    by_cases hxy : x.priority < y.priority
    · simp [stableInsert, hxy]
    · simp [stableInsert, hxy, ih]

lemma stableInsert_filter (x : Provider) (c : Int) :
    ∀ l : List Provider, sortedByPriority l →
      (stableInsert x l).filter (fun p => p.priority == c) =
        if x.priority = c then
          l.filter (fun p => p.priority == c) ++ [x]
        else l.filter (fun p => p.priority == c) := by
  intro l
  induction l with
  | nil =>
    intro
    by_cases hxc : x.priority = c <;> simp [stableInsert, hxc]
  | cons y l ih =>
    intro hs
    have hsl : sortedByPriority l := (List.pairwise_cons.mp hs).2
    have hy : ∀ z ∈ l, y.priority ≤ z.priority :=
      fun z hz => List.rel_of_pairwise_cons hs hz
    by_cases hxy : x.priority < y.priority
    · simp only [stableInsert, if_pos hxy]
      by_cases hxc : x.priority = c
      · have hrest : (y :: l).filter (fun p => p.priority == c) = [] := by
          rw [List.filter_eq_nil_iff]
          intro z hz
          rcases List.mem_cons.mp hz with hz | hz
          · subst hz
            simp only [beq_iff_eq]
            omega
          · have := hy z hz
            simp only [beq_iff_eq]
            omega
        rw [if_pos hxc, hrest]
        rw [List.filter_cons_of_pos (by simpa using hxc), hrest]
        rfl
      · rw [if_neg hxc]
        rw [List.filter_cons_of_neg (by simpa using hxc)]
    · simp only [stableInsert, if_neg hxy]
      by_cases hyc : y.priority = c
      · rw [List.filter_cons_of_pos (by simpa using hyc),
          List.filter_cons_of_pos (by simpa using hyc), ih hsl]
        by_cases hxc : x.priority = c <;> simp [hxc]
      · rw [List.filter_cons_of_neg (by simpa using hyc),
          List.filter_cons_of_neg (by simpa using hyc), ih hsl]

lemma registerProvider_step (r : Registry) (p : Provider)
    (hs : sortedByPriority r.providers) (hlen : r.providers.length + 1 ≤ 12) :
    (registerProvider r p).providers = stableInsert p r.providers := by
  show sortSliceGo providerLess (r.providers ++ [p]) = _
  rw [sortSliceGo_le_twelve providerLess _ (by simpa using hlen),
    insertionSortList_append_singleton, insertionSortList_sorted_id _ hs,
    bubbleLeft_reverse_eq_stableInsert p r.providers.reverse
      (by simpa using hs), List.reverse_reverse]

lemma registerFold_invariant :
    ∀ (ps : List Provider) (r : Registry),
      sortedByPriority r.providers →
      r.providers.length + ps.length ≤ 12 →
      sortedByPriority ((ps.foldl registerProvider r).providers)
      ∧ ∀ c : Int,
          ((ps.foldl registerProvider r).providers).filter
              (fun p => p.priority == c)
            = r.providers.filter (fun p => p.priority == c)
              ++ ps.filter (fun p => p.priority == c) := by
  intro ps
  induction ps with
  | nil =>
    intro r hs _
    exact ⟨hs, fun c => by simp⟩
  | cons p ps ih =>
    intro r hs hlen
    have hstep : (registerProvider r p).providers = stableInsert p r.providers :=
      registerProvider_step r p hs (by simp at hlen; omega)
    have hsorted2 : sortedByPriority (registerProvider r p).providers := by
      rw [hstep]; exact stableInsert_sorted p r.providers hs
    have hlen2 : (registerProvider r p).providers.length + ps.length ≤ 12 := by
      rw [hstep, stableInsert_length]
      simp at hlen
      omega
    obtain ⟨hA, hB⟩ := ih (registerProvider r p) hsorted2 hlen2
    rw [List.foldl_cons]
    refine ⟨hA, fun c => ?_⟩
    rw [hB c, hstep, stableInsert_filter p c r.providers hs]
    by_cases hpc : p.priority = c
    · rw [if_pos hpc, List.filter_cons_of_pos (by simpa using hpc)]
      simp
    · rw [if_neg hpc, List.filter_cons_of_neg (by simpa using hpc)]

/-- C5: the claim as stated is false on the code.  `sort.Slice` is Go's
pdqsort, which is not stable: registering the thirteen providers of
`thirteenProviders` — ten of them at equal priority 1 in the order
`a b c d e f g h i j` — leaves the priority-1 providers in the order
`f c d e b g h i j a`, not their registration order.  (The first twelve
registrations sort at most 12 elements and stay stable via insertion sort;
the 13th sorts 13 elements through the pdqsort partition, which scrambles
the equal-priority run.) -/
theorem C5_counterexample :
    (((registerAll thirteenProviders).providers.filter
        (fun p => p.priority == 1)).map Provider.name)
      = ["f", "c", "d", "e", "b", "g", "h", "i", "j", "a"]
    ∧ ((thirteenProviders.filter (fun p => p.priority == 1)).map Provider.name)
      = ["a", "b", "c", "d", "e", "f", "g", "h", "i", "j"]
    ∧ (["f", "c", "d", "e", "b", "g", "h", "i", "j", "a"] : List String)
      ≠ ["a", "b", "c", "d", "e", "f", "g", "h", "i", "j"] := by
  exact ⟨by rfl, by rfl, by decide⟩

/-- C5 (amended): for every sequence of at most 12 `RegisterProvider` calls,
the resulting provider sequence is sorted ascending by `Priority()` and
providers of equal priority appear in registration order (each re-sort runs
`sort.Slice`'s stable insertion-sort path).  From the 13th provider on,
`sort.Slice`'s pdqsort gives no stability guarantee and can reorder
equal-priority providers. -/
theorem C5_sorted_and_stable_up_to_twelve :
    ∀ ps : List Provider, ps.length ≤ 12 →
      sortedByPriority ((registerAll ps).providers)
      ∧ ∀ c : Int,
          ((registerAll ps).providers).filter (fun p => p.priority == c)
            = ps.filter (fun p => p.priority == c) := by
  intro ps h
  obtain ⟨hA, hB⟩ := registerFold_invariant ps newRegistry
    (by simp [newRegistry, sortedByPriority]) (by simpa [newRegistry] using h)
  refine ⟨hA, fun c => ?_⟩
  have := hB c
  simpa [newRegistry, registerAll] using this

/-- C5 witness: two providers of equal priority registered within the
insertion-sort regime stay in registration order. -/
theorem C5_witness :
    (([mkProvider "x" 1, mkProvider "y" 1] : List Provider).length ≤ 12)
    ∧ sortedByPriority
        ((registerAll [mkProvider "x" 1, mkProvider "y" 1]).providers)
    ∧ ((registerAll [mkProvider "x" 1, mkProvider "y" 1]).providers.filter
          (fun p => p.priority == 1)
        = ([mkProvider "x" 1, mkProvider "y" 1] : List Provider).filter
            (fun p => p.priority == 1)) := by
  refine ⟨by decide, ?_, ?_⟩
  · exact (C5_sorted_and_stable_up_to_twelve
      [mkProvider "x" 1, mkProvider "y" 1] (by decide)).1
  · exact (C5_sorted_and_stable_up_to_twelve
      [mkProvider "x" 1, mkProvider "y" 1] (by decide)).2 1

end Marvin
